import Mathlib

/-!
Shallow embedding of the thread-scoped hybrid retrieval core of the
email_rag_chatbot repository, together with proofs checking the
natural-language specification against the code.

Embedded source files:
* src/retrieval/bm25_retriever.py   (BM25Retriever)
* src/retrieval/vector_retriever.py (VectorRetriever)
* src/retrieval/hybrid_retriever.py (HybridRetriever, RRF fusion)
* src/retrieval/retriever_factory.py (RetrieverFactory.load_hybrid_retriever)
* src/ingestion/indexer.py          (save_thread_index / load_thread_index)
* src/config.py                     (RetrievalConfig)

Modelling conventions:
* Python floats are modelled as rationals; the claims under scrutiny are
  about ordering, arithmetic identities and lengths, not rounding.
* A LangChain Document carries page_content and a metadata dict; in this
  system the indexer always stores the chunk id under metadata, so the
  chunk id is a dedicated field and the remaining metadata entries are an
  association list.
* Python dicts preserve insertion order; they are modelled as association
  lists whose update rewrites an existing key in place and appends a fresh
  key at the end.
* Python sorted is a stable sort; sorting with key equal to the score in
  descending order over a list with distinct positions equals sorting by
  the linear order (score descending, position ascending).  We use
  insertionSort with that linear order: since the order is total and
  antisymmetric on the sorted elements, every correct sort, stable or not,
  produces the same list.
* The external libraries rank_bm25 and FAISS are opaque: a BM25 index is a
  corpus size plus a scoring function, a FAISS store is a vector count
  plus a search function.  Their internals decide none of the claims.
* The on-disk index directory is a map from thread id to a directory whose
  four files are each Option-valued; save is a fold over the sequence of
  write operations the Python function performs, in program order.
-/

/-- A LangChain Document as produced by Indexer.create_chunks: the chunk
text, the chunk id stored in metadata, and the remaining metadata entries. -/
structure Document where
  page_content : String
  chunk_id : String
  metadata : List (String × String)
deriving DecidableEq, Repr, Inhabited

/-- query.lower().split(): case-fold, split on whitespace, drop empties. -/
def tokenize (s : String) : List String :=
  (s.toLower.split Char.isWhitespace).filter (fun t => t ≠ "")

/-- Opaque model of a rank_bm25 BM25Okapi index: corpus_size is the number
of indexed documents; get_scores maps a tokenized query to one score per
indexed document. -/
structure BM25Okapi where
  corpus_size : Nat
  get_scores : List String → List ℚ

/-- Opaque model of a LangChain FAISS vector store: index_size is the
number of stored vectors; similarity_search_with_score returns
(document, distance) pairs for a query and a requested k. -/
structure FAISSStore where
  index_size : Nat
  similarity_search_with_score : String → Nat → List (Document × ℚ)

/-! ### BM25Retriever (src/retrieval/bm25_retriever.py) -/

structure BM25Retriever where
  bm25_index : BM25Okapi
  documents : List Document

/-- The linear order on internal document ids realised by Python's
sorted(range(len(scores)), key=lambda i: scores[i], reverse=True):
score descending, and (by stability of sorted over range) lower id first
among equal scores. -/
def scoreDescIdxLE (scores : List ℚ) (i j : Nat) : Prop :=
  scores.getD j 0 < scores.getD i 0 ∨
    (scores.getD i 0 = scores.getD j 0 ∧ i ≤ j)

instance (scores : List ℚ) : DecidableRel (scoreDescIdxLE scores) := fun i j => by
  unfold scoreDescIdxLE; infer_instance

instance (scores : List ℚ) : IsTotal Nat (scoreDescIdxLE scores) where
  total i j := by
    unfold scoreDescIdxLE
    rcases lt_trichotomy (scores.getD i 0) (scores.getD j 0) with h | h | h
    · exact Or.inr (Or.inl h)
    · rcases Nat.le_total i j with hij | hij
      · exact Or.inl (Or.inr ⟨h, hij⟩)
      · exact Or.inr (Or.inr ⟨h.symm, hij⟩)
    · exact Or.inl (Or.inl h)

instance (scores : List ℚ) : IsTrans Nat (scoreDescIdxLE scores) where
  trans i j l hij hjl := by
    unfold scoreDescIdxLE at *
    rcases hij with h1 | ⟨e1, le1⟩
    · rcases hjl with h2 | ⟨e2, _⟩
      · exact Or.inl (h2.trans h1)
      · exact Or.inl (e2 ▸ h1)
    · rcases hjl with h2 | ⟨e2, le2⟩
      · exact Or.inl (e1 ▸ h2)
      · exact Or.inr ⟨e1.trans e2, le1.trans le2⟩

/-- top_indices = sorted(range(len(scores)), key=lambda i: scores[i],
reverse=True)[:top_k]. -/
def bm25TopIndices (scores : List ℚ) (top_k : Nat) : List Nat :=
  (List.insertionSort (scoreDescIdxLE scores) (List.range scores.length)).take top_k

/-- BM25Retriever.retrieve: tokenize the query, score the corpus, take the
top_k internal ids in stable score-descending order, and return the
corresponding (document, score) pairs.  (documents[idx] is in range
whenever the index is aligned with the corpus; out-of-range access is
totalised with default.) -/
def BM25Retriever.retrieve (r : BM25Retriever) (query : String) (top_k : Nat) :
    List (Document × ℚ) :=
  let tokenized_query := tokenize query
  let scores := r.bm25_index.get_scores tokenized_query
  let top_indices := bm25TopIndices scores top_k
  top_indices.map (fun idx => (r.documents.getD idx default, scores.getD idx 0))

/-! ### VectorRetriever (src/retrieval/vector_retriever.py) -/

structure VectorRetriever where
  faiss_index : FAISSStore

/-- VectorRetriever.retrieve: similarity search, then negate each distance
to obtain a similarity score. -/
def VectorRetriever.retrieve (r : VectorRetriever) (query : String) (top_k : Nat) :
    List (Document × ℚ) :=
  (r.faiss_index.similarity_search_with_score query top_k).map
    (fun p => (p.1, -p.2))

/-! ### HybridRetriever (src/retrieval/hybrid_retriever.py) -/

structure HybridRetriever where
  bm25_retriever : BM25Retriever
  vector_retriever : VectorRetriever
  bm25_weight : ℚ := 1/2
  vector_weight : ℚ := 1/2
  k : Nat := 60

/-- Lookup modelling Python dict.get(key, d) on an insertion-ordered dict. -/
def dictGetD (m : List (String × ℚ)) (key : String) (d : ℚ) : ℚ :=
  match m.find? (fun p => p.1 = key) with
  | some p => p.2
  | none => d

/-- Assignment modelling Python dict[key] = v: rewrite an existing key in
place, append a fresh key at the end (dicts preserve insertion order). -/
def dictInsert {α : Type} (m : List (String × α)) (key : String) (v : α) :
    List (String × α) :=
  if m.any (fun p => p.1 = key) then
    m.map (fun p => if p.1 = key then (key, v) else p)
  else
    m ++ [(key, v)]

/-- Lookup modelling doc_objects[doc_id] (the key is always present at the
call site; absence is totalised with default). -/
def dictGetDoc (m : List (String × Document)) (key : String) : Document :=
  match m.find? (fun p => p.1 = key) with
  | some p => p.2
  | none => default

/-- The two insertion-ordered dicts built inside
_reciprocal_rank_fusion. -/
structure FusionState where
  doc_scores : List (String × ℚ)
  doc_objects : List (String × Document)

/-- for rank, (doc, _) in enumerate(results, start=1):
      doc_id = doc.metadata.get('chunk_id', id(doc))
      rrf_score = weight / (k + rank)
      doc_scores[doc_id] = doc_scores.get(doc_id, 0) + rrf_score
      doc_objects[doc_id] = doc
(the indexer stores a chunk_id in every document it emits, so the id(doc)
fallback is never taken). -/
def processResults (weight : ℚ) (k : Nat) :
    List (Document × ℚ) → Nat → FusionState → FusionState
  | [], _, st => st
  | (doc, _) :: rest, rank, st =>
      let doc_id := doc.chunk_id
      let rrf_score := weight / ((k : ℚ) + (rank : ℚ))
      processResults weight k rest (rank + 1)
        { doc_scores := dictInsert st.doc_scores doc_id
            (dictGetD st.doc_scores doc_id 0 + rrf_score)
          doc_objects := dictInsert st.doc_objects doc_id doc }

/-- The linear order realised by Python's stable
sorted(doc_scores.items(), key=lambda x: x[1], reverse=True) on the
position-tagged items: score descending, insertion position ascending
among equal scores. -/
def fusedLE (a b : Nat × (String × ℚ)) : Prop :=
  b.2.2 < a.2.2 ∨ (a.2.2 = b.2.2 ∧ a.1 ≤ b.1)

instance : DecidableRel fusedLE := fun a b => by
  unfold fusedLE; infer_instance

instance : IsTotal (Nat × (String × ℚ)) fusedLE where
  total a b := by
    unfold fusedLE
    rcases lt_trichotomy a.2.2 b.2.2 with h | h | h
    · exact Or.inr (Or.inl h)
    · rcases Nat.le_total a.1 b.1 with hij | hij
      · exact Or.inl (Or.inr ⟨h, hij⟩)
      · exact Or.inr (Or.inr ⟨h.symm, hij⟩)
    · exact Or.inl (Or.inl h)

instance : IsTrans (Nat × (String × ℚ)) fusedLE where
  trans a b c hab hbc := by
    unfold fusedLE at *
    rcases hab with h1 | ⟨e1, le1⟩
    · rcases hbc with h2 | ⟨e2, _⟩
      · exact Or.inl (h2.trans h1)
      · exact Or.inl (e2 ▸ h1)
    · rcases hbc with h2 | ⟨e2, le2⟩
      · exact Or.inl (e1 ▸ h2)
      · exact Or.inr ⟨e1.trans e2, le1.trans le2⟩

/-- sorted(doc_scores.items(), key=lambda x: x[1], reverse=True). -/
def pySortItemsDesc (items : List (String × ℚ)) : List (String × ℚ) :=
  (List.insertionSort fusedLE items.enum).map Prod.snd

/-- HybridRetriever._reciprocal_rank_fusion. -/
def reciprocal_rank_fusion (h : HybridRetriever)
    (bm25_results vector_results : List (Document × ℚ)) : List (Document × ℚ) :=
  let st0 : FusionState := ⟨[], []⟩
  let st1 := processResults h.bm25_weight h.k bm25_results 1 st0
  let st2 := processResults h.vector_weight h.k vector_results 1 st1
  let sorted_docs := pySortItemsDesc st2.doc_scores
  sorted_docs.map (fun p => (dictGetDoc st2.doc_objects p.1, p.2))

/-- HybridRetriever.retrieve: ask each sub-retriever for 2*top_k
candidates, fuse, return the top_k fused results. -/
def HybridRetriever.retrieve (h : HybridRetriever) (query : String) (top_k : Nat) :
    List (Document × ℚ) :=
  let retrieval_k := top_k * 2
  let bm25_results := h.bm25_retriever.retrieve query retrieval_k
  let vector_results := h.vector_retriever.retrieve query retrieval_k
  (reciprocal_rank_fusion h bm25_results vector_results).take top_k

/-! ### Persistence (src/ingestion/indexer.py) -/

/-- One entry of the metadata.json catalog: chunk id, a 200-character text
preview, and the document's full metadata dict. -/
structure CatalogChunk where
  chunk_id : String
  text_preview : String
  metadata : List (String × String)
deriving DecidableEq, Repr

/-- The metadata.json catalog written alongside the indexes. -/
structure Catalog where
  thread_id : String
  chunk_count : Nat
  chunks : List CatalogChunk
deriving DecidableEq, Repr

def buildCatalog (thread_id : String) (documents : List Document) : Catalog :=
  { thread_id := thread_id
    chunk_count := documents.length
    chunks := documents.map (fun d =>
      { chunk_id := d.chunk_id
        text_preview := d.page_content.take 200
        metadata := ("chunk_id", d.chunk_id) :: d.metadata }) }

/-- The per-thread index directory: each of the four artifacts is present
or absent independently. -/
structure ThreadIndexDir where
  bm25_file : Option BM25Okapi := none
  faiss_dir : Option FAISSStore := none
  metadata_file : Option Catalog := none
  docs_file : Option (List Document) := none

/-- INDEXES_DIR as a map from thread id to its index directory,
insertion-ordered. -/
abbrev FileSystem : Type := List (String × ThreadIndexDir)

def fsFind (fs : FileSystem) (thread_id : String) : Option ThreadIndexDir :=
  (List.find? (fun p => p.1 = thread_id) fs).map Prod.snd

def fsUpdate (fs : FileSystem) (thread_id : String)
    (f : ThreadIndexDir → ThreadIndexDir) : FileSystem :=
  List.map (fun p => if p.1 = thread_id then (p.1, f p.2) else p) fs

/-- A freshly created, still empty thread index directory. -/
def ThreadIndexDir.emptyDir : ThreadIndexDir := {}

/-- thread_index_dir.mkdir(parents=True, exist_ok=True). -/
def mkdirP (fs : FileSystem) (thread_id : String) : FileSystem :=
  if (fsFind fs thread_id).isSome then fs
  else fs ++ [(thread_id, ThreadIndexDir.emptyDir)]

/-- The individual writes save_thread_index performs, in program order. -/
inductive SaveOp where
  | mkdirThread
  | writeBM25 (b : BM25Okapi)
  | writeFaiss (f : FAISSStore)
  | writeCatalog (c : Catalog)
  | writeDocs (docs : List Document)

/-- Effect of one write on the index tree; every write goes directly to
the thread's final directory (the Python code uses no temporary
location). -/
def applySaveOp (thread_id : String) (fs : FileSystem) : SaveOp → FileSystem
  | .mkdirThread => mkdirP fs thread_id
  | .writeBM25 b => fsUpdate fs thread_id (fun d => { d with bm25_file := some b })
  | .writeFaiss f => fsUpdate fs thread_id (fun d => { d with faiss_dir := some f })
  | .writeCatalog c => fsUpdate fs thread_id (fun d => { d with metadata_file := some c })
  | .writeDocs docs => fsUpdate fs thread_id (fun d => { d with docs_file := some docs })

/-- The write sequence of save_thread_index: mkdir, bm25_index.pkl,
faiss_index/, metadata.json, documents.pkl. -/
def saveOps (thread_id : String) (documents : List Document)
    (bm25_index : BM25Okapi) (faiss_index : FAISSStore) : List SaveOp :=
  [SaveOp.mkdirThread, SaveOp.writeBM25 bm25_index, SaveOp.writeFaiss faiss_index,
   SaveOp.writeCatalog (buildCatalog thread_id documents), SaveOp.writeDocs documents]

/-- Indexer.save_thread_index: run all writes to completion. -/
def save_thread_index (fs : FileSystem) (thread_id : String)
    (documents : List Document) (bm25_index : BM25Okapi)
    (faiss_index : FAISSStore) : FileSystem :=
  (saveOps thread_id documents bm25_index faiss_index).foldl
    (applySaveOp thread_id) fs

inductive LoadError where
  | NotFound (thread_id : String)
  | ReadError
deriving DecidableEq, Repr

/-- The dictionary load_thread_index returns. -/
structure IndexData where
  bm25_index : BM25Okapi
  faiss_index : FAISSStore
  documents : List Document
  metadata : Catalog

/-- Indexer.load_thread_index: raise FileNotFoundError if the thread's
directory is absent, otherwise read the four artifacts back; a missing
file surfaces as an unstructured read error.  The function performs no
consistency check between the artifacts. -/
def load_thread_index (fs : FileSystem) (thread_id : String) :
    Except LoadError IndexData :=
  match fsFind fs thread_id with
  | none => .error (.NotFound thread_id)
  | some dir =>
    match dir.bm25_file, dir.faiss_dir, dir.docs_file, dir.metadata_file with
    | some b, some f, some docs, some m =>
        .ok { bm25_index := b, faiss_index := f, documents := docs, metadata := m }
    | _, _, _, _ => .error .ReadError

/-! ### RetrieverFactory (src/retrieval/retriever_factory.py, src/config.py) -/

structure RetrievalConfig where
  chunk_size : Nat := 400
  chunk_overlap : Nat := 50
  top_k_bm25 : Nat := 10
  top_k_vector : Nat := 10
  top_k_final : Nat := 5
  bm25_weight : ℚ := 1/2
  vector_weight : ℚ := 1/2

def RETRIEVAL_CONFIG : RetrievalConfig := {}

/-- Python's (x or d) for an optional float x: None and 0.0 are both
falsy, so either yields the default. -/
def pyOrDefault (x : Option ℚ) (d : ℚ) : ℚ :=
  match x with
  | none => d
  | some v => if v = 0 then d else v

/-- RetrieverFactory.load_hybrid_retriever. -/
def load_hybrid_retriever (fs : FileSystem) (thread_id : String)
    (bm25_weight vector_weight : Option ℚ) : Except LoadError HybridRetriever :=
  match load_thread_index fs thread_id with
  | .error e => .error e
  | .ok index_data =>
      .ok { bm25_retriever :=
              { bm25_index := index_data.bm25_index
                documents := index_data.documents }
            vector_retriever := { faiss_index := index_data.faiss_index }
            bm25_weight := pyOrDefault bm25_weight RETRIEVAL_CONFIG.bm25_weight
            vector_weight := pyOrDefault vector_weight RETRIEVAL_CONFIG.vector_weight
            k := 60 }

/-! ### Basic file-system lemmas -/

theorem fsFind_fsUpdate (fs : FileSystem) (thread_id : String)
    (f : ThreadIndexDir → ThreadIndexDir) :
    fsFind (fsUpdate fs thread_id f) thread_id = (fsFind fs thread_id).map f := by
  induction fs with
  | nil => rfl
  | cons p tl ih =>
    by_cases h : p.1 = thread_id
    · simp [fsFind, fsUpdate, List.find?_cons, h]
    · simpa [fsFind, fsUpdate, List.find?_cons, h] using ih

theorem fsFind_mkdirP_self (fs : FileSystem) (thread_id : String) :
    fsFind (mkdirP fs thread_id) thread_id =
      some ((fsFind fs thread_id).getD ThreadIndexDir.emptyDir) := by
  unfold mkdirP
  cases h : fsFind fs thread_id with
  | some d => simp [h]
  | none =>
    have hfind : List.find? (fun p => p.1 = thread_id) fs = none := by
      unfold fsFind at h
      exact Option.map_eq_none.mp h
    simp [h, fsFind, List.find?_append, hfind]

theorem fsFind_save (fs : FileSystem) (thread_id : String)
    (documents : List Document) (bm25_index : BM25Okapi) (faiss_index : FAISSStore) :
    fsFind (save_thread_index fs thread_id documents bm25_index faiss_index) thread_id =
      some { bm25_file := some bm25_index
             faiss_dir := some faiss_index
             metadata_file := some (buildCatalog thread_id documents)
             docs_file := some documents } := by
  unfold save_thread_index saveOps
  simp only [List.foldl_cons, List.foldl_nil, applySaveOp]
  rw [fsFind_fsUpdate, fsFind_fsUpdate, fsFind_fsUpdate, fsFind_fsUpdate,
    fsFind_mkdirP_self]
  rfl

theorem load_after_save (fs : FileSystem) (thread_id : String)
    (documents : List Document) (bm25_index : BM25Okapi) (faiss_index : FAISSStore) :
    load_thread_index (save_thread_index fs thread_id documents bm25_index faiss_index)
        thread_id =
      .ok { bm25_index := bm25_index
            faiss_index := faiss_index
            documents := documents
            metadata := buildCatalog thread_id documents } := by
  unfold load_thread_index
  rw [fsFind_save]

/-! ### Concrete fixtures for witnesses and counterexamples -/

def chunkA : Document := ⟨"the budget is 45000", "a", [("thread_id", "t1")]⟩
def chunkB : Document := ⟨"vendor contract draft", "b", [("thread_id", "t1")]⟩
def dupChunk1 : Document := ⟨"first version", "dup", []⟩
def dupChunk2 : Document := ⟨"second version", "dup", []⟩

def bm25Size1 : BM25Okapi := ⟨1, fun _ => [0]⟩
def bm25Size2 : BM25Okapi := ⟨2, fun _ => [0, 0]⟩
def faissSize1 : FAISSStore := ⟨1, fun _ _ => []⟩
def faissSize2 : FAISSStore := ⟨2, fun _ _ => []⟩
def faissSize5 : FAISSStore := ⟨5, fun _ _ => []⟩

/-- A persisted thread directory whose artifacts disagree on size: two
stored chunks, a lexical index of one row, a vector index of five rows. -/
def mismatchedFs : FileSystem :=
  [("t1", { bm25_file := some bm25Size1
            faiss_dir := some faissSize5
            metadata_file := some (buildCatalog "t1" [chunkA, chunkB])
            docs_file := some [chunkA, chunkB] })]

def fsSingle : FileSystem := save_thread_index [] "t1" [chunkA] bm25Size1 faissSize1

/-! ### C1: load and the alignment invariant -/

/-- C1 counterexample: the persisted artifacts of thread t1 disagree on
size (2 stored documents, lexical index of size 1, vector index of size
5), yet load_thread_index returns a bundle instead of failing with a
Corrupt error, and the loaded bundle violates
len(chunk_store) == lexical_index.size == vector_index.size. -/
theorem load_size_mismatch_returns_bundle_cex :
    (load_thread_index mismatchedFs "t1").toOption.map
        (fun d => (d.documents.length, d.bm25_index.corpus_size, d.faiss_index.index_size))
      = some (2, 1, 5) ∧ (2 ≠ 1 ∧ 1 ≠ 5) :=
  ⟨rfl, by decide⟩

/-- C1 (amended): load_thread_index performs no consistency check between
the artifacts: whenever the thread directory holds all four artifacts it
returns them as a bundle unconditionally, even if the chunk store, the
lexical index and the vector index disagree on size, so a loaded bundle
need not satisfy the alignment invariant. -/
theorem load_thread_index_no_size_check (fs : FileSystem) (thread_id : String)
    (b : BM25Okapi) (f : FAISSStore) (docs : List Document) (m : Catalog)
    (h : fsFind fs thread_id =
      some { bm25_file := some b, faiss_dir := some f,
             metadata_file := some m, docs_file := some docs }) :
    load_thread_index fs thread_id =
      .ok { bm25_index := b, faiss_index := f, documents := docs, metadata := m } := by
  unfold load_thread_index
  rw [h]

/-- Witness for C1 (amended) at the size-mismatched store. -/
theorem load_thread_index_no_size_check_witness :
    load_thread_index mismatchedFs "t1" =
      .ok { bm25_index := bm25Size1, faiss_index := faissSize5,
            documents := [chunkA, chunkB],
            metadata := buildCatalog "t1" [chunkA, chunkB] } :=
  load_thread_index_no_size_check mismatchedFs "t1" bm25Size1 faissSize5
    [chunkA, chunkB] (buildCatalog "t1" [chunkA, chunkB]) rfl

/-! ### C6: NotFound on missing thread -/

/-- C6: for a thread id with no persisted bundle, load_thread_index fails
with the NotFound error, and the retriever factory propagates the same
error instead of yielding a retriever. -/
theorem load_missing_thread_not_found (fs : FileSystem) (thread_id : String)
    (bm25_weight vector_weight : Option ℚ)
    (h : fsFind fs thread_id = none) :
    load_thread_index fs thread_id = .error (.NotFound thread_id) ∧
    load_hybrid_retriever fs thread_id bm25_weight vector_weight =
      .error (.NotFound thread_id) := by
  have h1 : load_thread_index fs thread_id = .error (.NotFound thread_id) := by
    unfold load_thread_index
    rw [h]
  refine ⟨h1, ?_⟩
  unfold load_hybrid_retriever
  rw [h1]

/-- Witness for C6: the empty index tree has no bundle for thread t9. -/
theorem load_missing_thread_not_found_witness :
    load_thread_index ([] : FileSystem) "t9" = .error (.NotFound "t9") ∧
    load_hybrid_retriever ([] : FileSystem) "t9" none none =
      .error (.NotFound "t9") :=
  load_missing_thread_not_found [] "t9" none none rfl

/-! ### C9: save/load round trip -/

/-- C9: loading immediately after saving returns a bundle whose chunk
sequence has identical chunk ids, identical text and identical metadata,
in the same order as the saved sequence. -/
theorem save_load_roundtrip (fs : FileSystem) (thread_id : String)
    (documents : List Document) (bm25_index : BM25Okapi) (faiss_index : FAISSStore) :
    (load_thread_index (save_thread_index fs thread_id documents bm25_index faiss_index)
        thread_id).toOption.map (fun d => d.documents.map Document.chunk_id)
      = some (documents.map Document.chunk_id) ∧
    (load_thread_index (save_thread_index fs thread_id documents bm25_index faiss_index)
        thread_id).toOption.map (fun d => d.documents.map Document.page_content)
      = some (documents.map Document.page_content) ∧
    (load_thread_index (save_thread_index fs thread_id documents bm25_index faiss_index)
        thread_id).toOption.map (fun d => d.documents.map Document.metadata)
      = some (documents.map Document.metadata) ∧
    (load_thread_index (save_thread_index fs thread_id documents bm25_index faiss_index)
        thread_id).toOption.map IndexData.documents = some documents := by
  rw [load_after_save]
  exact ⟨rfl, rfl, rfl, rfl⟩

/-! ### C4: save is not atomic -/

/-- C4 counterexample: start from a completed save of one chunk, then run
only the first two steps of a re-save (mkdir and the bm25 write).  A load
at that point succeeds and observes the re-save's lexical index (corpus
size 2) together with the previous chunk store [chunkA]: a bundle in
which only some of the artifacts of the in-progress save have been
written. -/
theorem save_not_atomic_cex :
    (load_thread_index
        (((saveOps "t1" [chunkA, chunkB] bm25Size2 faissSize2).take 2).foldl
          (applySaveOp "t1") (save_thread_index [] "t1" [chunkA] bm25Size1 faissSize1))
        "t1").toOption.map (fun d => (d.bm25_index.corpus_size, d.documents))
      = some (2, [chunkA]) ∧ [chunkA] ≠ [chunkA, chunkB] :=
  ⟨rfl, by decide⟩

/-- mkdir(exist_ok=True) on an existing directory changes nothing. -/
theorem mkdirP_of_exists (fs : FileSystem) (thread_id : String)
    (h : (fsFind fs thread_id).isSome) : mkdirP fs thread_id = fs := by
  unfold mkdirP
  simp [h]

/-- C4 (amended): save_thread_index is not all-or-nothing: it writes the
artifacts sequentially, directly into the thread's final directory
(mkdir, lexical index, vector index, catalog, chunk store), with no
temporary location and no atomic publish.  A load issued after the
lexical-index write of a re-save and before its remaining writes
observes a mixed bundle: the new lexical index together with the
previous save's vector index, chunk store and catalog. -/
theorem save_writes_directly_mixed_observable (fs : FileSystem) (thread_id : String)
    (docsOld : List Document) (bOld : BM25Okapi) (fOld : FAISSStore)
    (docsNew : List Document) (bNew : BM25Okapi) (fNew : FAISSStore) :
    load_thread_index
        (((saveOps thread_id docsNew bNew fNew).take 2).foldl (applySaveOp thread_id)
          (save_thread_index fs thread_id docsOld bOld fOld)) thread_id =
      .ok { bm25_index := bNew, faiss_index := fOld, documents := docsOld,
            metadata := buildCatalog thread_id docsOld } := by
  have htake : (saveOps thread_id docsNew bNew fNew).take 2 =
      [SaveOp.mkdirThread, SaveOp.writeBM25 bNew] := rfl
  rw [htake]
  simp only [List.foldl_cons, List.foldl_nil, applySaveOp]
  rw [mkdirP_of_exists _ _ (by rw [fsFind_save]; rfl)]
  unfold load_thread_index
  rw [fsFind_fsUpdate, fsFind_save]
  rfl

/-! ### C7: duplicate chunk ids are not rejected -/

/-- C7 counterexample: a chunk sequence with two chunks sharing the same
chunk_id is accepted by save_thread_index: the save completes and a
subsequent load returns both duplicate chunks, so persistence neither
raised an error nor deduplicated. -/
theorem save_duplicate_ids_not_rejected_cex :
    (load_thread_index (save_thread_index [] "t1" [dupChunk1, dupChunk2] bm25Size2 faissSize2)
        "t1").toOption.map IndexData.documents = some [dupChunk1, dupChunk2] ∧
    dupChunk1.chunk_id = dupChunk2.chunk_id ∧ dupChunk1 ≠ dupChunk2 :=
  ⟨rfl, rfl, by decide⟩

/-- C7 (amended): save_thread_index performs no duplicate-chunk_id
detection: a chunk sequence containing duplicate chunk ids is persisted
unchanged, duplicates included. -/
theorem save_duplicate_ids_persisted (fs : FileSystem) (thread_id : String)
    (documents : List Document) (b : BM25Okapi) (f : FAISSStore)
    (_hdup : ¬ (documents.map Document.chunk_id).Nodup) :
    (load_thread_index (save_thread_index fs thread_id documents b f)
        thread_id).toOption.map IndexData.documents = some documents := by
  rw [load_after_save]
  rfl

/-- Witness for C7 (amended) on a duplicate-id chunk pair. -/
theorem save_duplicate_ids_persisted_witness :
    (load_thread_index (save_thread_index [] "t2" [dupChunk1, dupChunk2] bm25Size2 faissSize2)
        "t2").toOption.map IndexData.documents = some [dupChunk1, dupChunk2] :=
  save_duplicate_ids_persisted [] "t2" [dupChunk1, dupChunk2] bm25Size2 faissSize2
    (by decide)

/-! ### C10: explicit zero weights fall back to the config defaults -/

/-- C10: load_hybrid_retriever tests truthiness rather than None, so an
explicit weight of 0.0 for bm25_weight or vector_weight is replaced by
the configured default 0.5: a caller cannot disable a sub-retriever's
contribution by passing weight zero. -/
theorem zero_weight_falls_back_to_default (fs : FileSystem) (thread_id : String)
    (r : HybridRetriever)
    (h : load_hybrid_retriever fs thread_id (some 0) (some 0) = .ok r) :
    r.bm25_weight = 1/2 ∧ r.vector_weight = 1/2 := by
  unfold load_hybrid_retriever at h
  cases hl : load_thread_index fs thread_id with
  | error e => rw [hl] at h; cases h
  | ok d =>
    rw [hl] at h
    cases h
    constructor <;> simp [pyOrDefault, RETRIEVAL_CONFIG]

/-- The retriever the factory builds for thread t1 of fsSingle when both
weights are passed explicitly as zero. -/
def retrieverZeroWeights : HybridRetriever :=
  { bm25_retriever := { bm25_index := bm25Size1, documents := [chunkA] }
    vector_retriever := { faiss_index := faissSize1 }
    bm25_weight := pyOrDefault (some 0) RETRIEVAL_CONFIG.bm25_weight
    vector_weight := pyOrDefault (some 0) RETRIEVAL_CONFIG.vector_weight
    k := 60 }

/-- Witness for C10 on a concrete persisted thread. -/
theorem zero_weight_falls_back_to_default_witness :
    retrieverZeroWeights.bm25_weight = 1/2 ∧
    retrieverZeroWeights.vector_weight = 1/2 :=
  zero_weight_falls_back_to_default fsSingle "t1" retrieverZeroWeights rfl

/-! ### C8: BM25 retrieval order -/

/-- C8: BM25Retriever.retrieve returns the documents listed by a sequence
of distinct internal document ids, ordered by BM25 score strictly
descending with ties between equal scores broken by the lower internal id
first, and of length min(top_k, corpus size): at most top_k results,
fewer when the corpus is smaller. -/
theorem bm25_retrieve_ranked (r : BM25Retriever) (query : String) (top_k : Nat)
    (hlen : (r.bm25_index.get_scores (tokenize query)).length = r.documents.length) :
    ∃ I : List Nat,
      I.Pairwise (fun i j =>
        (r.bm25_index.get_scores (tokenize query)).getD j 0 <
            (r.bm25_index.get_scores (tokenize query)).getD i 0 ∨
          ((r.bm25_index.get_scores (tokenize query)).getD i 0 =
              (r.bm25_index.get_scores (tokenize query)).getD j 0 ∧ i < j)) ∧
      (∀ i ∈ I, i < r.documents.length) ∧ I.Nodup ∧
      I.length = min top_k r.documents.length ∧
      r.retrieve query top_k =
        I.map (fun idx => (r.documents.getD idx default,
          (r.bm25_index.get_scores (tokenize query)).getD idx 0)) := by
  refine ⟨bm25TopIndices (r.bm25_index.get_scores (tokenize query)) top_k,
    ?_, ?_, ?_, ?_, rfl⟩
  · set scores := r.bm25_index.get_scores (tokenize query) with hs
    have hsorted : (List.insertionSort (scoreDescIdxLE scores)
        (List.range scores.length)).Pairwise (scoreDescIdxLE scores) :=
      List.sorted_insertionSort (scoreDescIdxLE scores) (List.range scores.length)
    have hnd : (bm25TopIndices scores top_k).Nodup :=
      ((List.perm_insertionSort (scoreDescIdxLE scores) (List.range scores.length)).nodup_iff.mpr
        (List.nodup_range _)).sublist (List.take_sublist _ _)
    have hle : (bm25TopIndices scores top_k).Pairwise (scoreDescIdxLE scores) :=
      hsorted.sublist (List.take_sublist _ _)
    refine (hle.and hnd).imp ?_
    rintro i j ⟨hij, hne⟩
    rcases hij with h | ⟨he, hle2⟩
    · exact Or.inl h
    · exact Or.inr ⟨he, lt_of_le_of_ne hle2 hne⟩
  · intro i hi
    rw [← hlen]
    have hmem : i ∈ List.range (r.bm25_index.get_scores (tokenize query)).length := by
      have hsub := List.take_sublist top_k (List.insertionSort
        (scoreDescIdxLE (r.bm25_index.get_scores (tokenize query)))
        (List.range (r.bm25_index.get_scores (tokenize query)).length))
      have hmem2 := hsub.mem hi
      rwa [List.mem_insertionSort] at hmem2
    exact List.mem_range.mp hmem
  · exact ((List.perm_insertionSort _ _).nodup_iff.mpr
      (List.nodup_range _)).sublist (List.take_sublist _ _)
  · simp [bm25TopIndices, List.length_take, List.length_insertionSort,
      List.length_range, hlen]

/-- A two-document corpus whose second document scores higher. -/
def bm25Pair : BM25Retriever := ⟨⟨2, fun _ => [1, 2]⟩, [chunkA, chunkB]⟩

/-- Witness for C8 on the two-document corpus with top_k = 1. -/
theorem bm25_retrieve_ranked_witness :
    ∃ I : List Nat,
      I.Pairwise (fun i j =>
        (bm25Pair.bm25_index.get_scores (tokenize "budget")).getD j 0 <
            (bm25Pair.bm25_index.get_scores (tokenize "budget")).getD i 0 ∨
          ((bm25Pair.bm25_index.get_scores (tokenize "budget")).getD i 0 =
              (bm25Pair.bm25_index.get_scores (tokenize "budget")).getD j 0 ∧ i < j)) ∧
      (∀ i ∈ I, i < bm25Pair.documents.length) ∧ I.Nodup ∧
      I.length = min 1 bm25Pair.documents.length ∧
      bm25Pair.retrieve "budget" 1 =
        I.map (fun idx => (bm25Pair.documents.getD idx default,
          (bm25Pair.bm25_index.get_scores (tokenize "budget")).getD idx 0)) :=
  bm25_retrieve_ranked bm25Pair "budget" 1 rfl

/-! ### Fusion lemma stack -/

def insertNew (acc : List String) (x : String) : List String :=
  if x ∈ acc then acc else acc ++ [x]

def firstOccList (ids : List String) : List String := ids.foldl insertNew []

def spec_rrfContribFrom (w : ℚ) (k : Nat) (c : String) :
    List (Document × ℚ) → Nat → ℚ
  | [], _ => 0
  | (d, _) :: rest, rank =>
      (if d.chunk_id = c then w / ((k : ℚ) + (rank : ℚ)) else 0) +
        spec_rrfContribFrom w k c rest (rank + 1)

def spec_rrfContrib (w : ℚ) (k : Nat) (results : List (Document × ℚ)) (c : String) : ℚ :=
  spec_rrfContribFrom w k c results 1

theorem dictInsert_map_fst {α : Type} (m : List (String × α)) (key : String) (v : α) :
    (dictInsert m key v).map Prod.fst = insertNew (m.map Prod.fst) key := by
  unfold dictInsert insertNew
  by_cases h : key ∈ m.map Prod.fst
  · have hany : m.any (fun p => p.1 = key) = true := by
      simp only [List.any_eq_true, decide_eq_true_eq]
      rcases List.mem_map.mp h with ⟨p, hp, he⟩
      exact ⟨p, hp, he⟩
    rw [if_pos hany, if_pos h, List.map_map]
    apply List.map_congr_left
    intro p _
    by_cases hk : p.1 = key
    · simp [hk]
    · simp [hk]
  · have hany : ¬ (m.any (fun p => p.1 = key) = true) := by
      simp only [List.any_eq_true, decide_eq_true_eq]
      rintro ⟨p, hp, he⟩
      exact h (List.mem_map.mpr ⟨p, hp, he⟩)
    rw [if_neg hany, if_neg h, List.map_append]
    rfl

theorem dictGetD_nil (c : String) (d : ℚ) : dictGetD [] c d = d := rfl

theorem dictGetD_cons (p : String × ℚ) (t : List (String × ℚ)) (c : String) (d : ℚ) :
    dictGetD (p :: t) c d = if p.1 = c then p.2 else dictGetD t c d := by
  unfold dictGetD
  by_cases h : p.1 = c
  · simp [List.find?_cons, h]
  · simp [List.find?_cons, h]

theorem dictGetD_map_update (m : List (String × ℚ)) (key c : String) (v d : ℚ) :
    dictGetD (m.map (fun p => if p.1 = key then (key, v) else p)) c d =
      if c = key then (if m.any (fun p => p.1 = key) then v else d)
      else dictGetD m c d := by
  induction m with
  | nil => simp [dictGetD_nil]
  | cons p t ih =>
    by_cases hp : p.1 = key
    · by_cases hc : c = key
      · subst hc
        simp [hp, dictGetD_cons, List.any_cons]
      · have hne : ¬ (key = c) := fun he => hc he.symm
        have hpc : ¬ (p.1 = c) := by rw [hp]; exact hne
        simp only [List.map_cons, if_pos hp, dictGetD_cons, if_neg hne, if_neg hpc, ih]
        simp [hc]
    · by_cases hpc : p.1 = c
      · have hck : ¬ (c = key) := fun he => hp (hpc.trans he)
        simp [List.map_cons, hp, dictGetD_cons, hpc, hck]
      · simp only [List.map_cons, if_neg hp, dictGetD_cons, if_neg hpc, ih]
        by_cases hc : c = key
        · simp only [hc, if_true, List.any_cons, decide_eq_false hp, Bool.false_or]
        · simp [hc]

theorem dictGetD_append_single (m : List (String × ℚ)) (key c : String) (v d : ℚ)
    (habs : ¬ (m.any (fun p => p.1 = key) = true)) :
    dictGetD (m ++ [(key, v)]) c d =
      if c = key then v else dictGetD m c d := by
  induction m with
  | nil =>
    by_cases hc : c = key
    · simp [dictGetD_cons, dictGetD_nil, hc]
    · have : ¬ (key = c) := fun he => hc he.symm
      simp [dictGetD_cons, dictGetD_nil, hc, this]
  | cons p t ih =>
    have hp : ¬ (p.1 = key) := by
      intro he
      exact habs (by simp [List.any_cons, he])
    have ht : ¬ (t.any (fun p => p.1 = key) = true) := by
      intro he
      exact habs (by simp [List.any_cons, he])
    by_cases hpc : p.1 = c
    · have hck : ¬ (c = key) := fun he => hp (hpc.trans he)
      simp [dictGetD_cons, hpc, hck]
    · simp [dictGetD_cons, hpc, ih ht]

theorem dictGetD_dictInsert (m : List (String × ℚ)) (key c : String) (v d : ℚ) :
    dictGetD (dictInsert m key v) c d = if c = key then v else dictGetD m c d := by
  unfold dictInsert
  by_cases hany : m.any (fun p => p.1 = key) = true
  · rw [if_pos hany, dictGetD_map_update]
    simp [hany]
  · rw [if_neg hany, dictGetD_append_single m key c v d hany]

theorem mem_dictInsert {α : Type} (m : List (String × α)) (key : String) (v : α)
    (x : String × α) (hx : x ∈ dictInsert m key v) : x ∈ m ∨ x = (key, v) := by
  unfold dictInsert at hx
  by_cases hany : m.any (fun p => p.1 = key) = true
  · rw [if_pos hany] at hx
    rcases List.mem_map.mp hx with ⟨p, hp, he⟩
    by_cases hk : p.1 = key
    · right
      rw [if_pos hk] at he
      exact he.symm
    · left
      rw [if_neg hk] at he
      exact he ▸ hp
  · rw [if_neg hany] at hx
    rcases List.mem_append.mp hx with h | h
    · exact Or.inl h
    · exact Or.inr (List.mem_singleton.mp h)

theorem insertNew_nodup (acc : List String) (x : String) (h : acc.Nodup) :
    (insertNew acc x).Nodup := by
  unfold insertNew
  by_cases hx : x ∈ acc
  · simpa [hx] using h
  · simp [hx, List.nodup_append, h]

theorem mem_insertNew (acc : List String) (x y : String) :
    y ∈ insertNew acc x ↔ y ∈ acc ∨ y = x := by
  unfold insertNew
  by_cases hx : x ∈ acc
  · simp only [if_pos hx]
    constructor
    · exact Or.inl
    · rintro (h | h)
      · exact h
      · exact h ▸ hx
  · simp [if_neg hx]

theorem foldl_insertNew_nodup (l : List String) :
    ∀ acc : List String, acc.Nodup → (l.foldl insertNew acc).Nodup := by
  induction l with
  | nil => intro acc h; exact h
  | cons a t ih =>
    intro acc h
    exact ih (insertNew acc a) (insertNew_nodup acc a h)

theorem mem_foldl_insertNew (l : List String) :
    ∀ (acc : List String) (x : String),
      x ∈ l.foldl insertNew acc ↔ x ∈ acc ∨ x ∈ l := by
  induction l with
  | nil => intro acc x; simp
  | cons a t ih =>
    intro acc x
    rw [List.foldl_cons, ih, mem_insertNew]
    simp [or_assoc]

theorem foldl_insertNew_of_fresh (l : List String) :
    ∀ acc : List String, l.Nodup → (∀ x ∈ l, x ∉ acc) →
      l.foldl insertNew acc = acc ++ l := by
  induction l with
  | nil => intro acc _ _; simp
  | cons a t ih =>
    intro acc hnd hfresh
    rw [List.foldl_cons]
    have ha : a ∉ acc := hfresh a (List.mem_cons_self a t)
    have hstep : insertNew acc a = acc ++ [a] := by
      unfold insertNew
      rw [if_neg ha]
    rw [hstep, ih (acc ++ [a]) (List.Nodup.of_cons hnd)]
    · simp
    · intro x hx
      rw [List.mem_append, List.mem_singleton]
      rintro (h | h)
      · exact hfresh x (List.mem_cons_of_mem a hx) h
      · exact (List.nodup_cons.mp hnd).1 (h ▸ hx)

theorem foldl_insertNew_of_subset (l : List String) :
    ∀ acc : List String, (∀ x ∈ l, x ∈ acc) → l.foldl insertNew acc = acc := by
  induction l with
  | nil => intro acc _; rfl
  | cons a t ih =>
    intro acc hsub
    rw [List.foldl_cons]
    have hstep : insertNew acc a = acc := by
      unfold insertNew
      rw [if_pos (hsub a (List.mem_cons_self a t))]
    rw [hstep]
    exact ih acc (fun x hx => hsub x (List.mem_cons_of_mem a hx))

theorem processResults_scores_keys (w : ℚ) (k : Nat) :
    ∀ (rs : List (Document × ℚ)) (rank : Nat) (st : FusionState),
      ((processResults w k rs rank st).doc_scores).map Prod.fst =
        (rs.map (fun p => p.1.chunk_id)).foldl insertNew
          (st.doc_scores.map Prod.fst) := by
  intro rs
  induction rs with
  | nil => intro rank st; rfl
  | cons p t ih =>
    intro rank st
    obtain ⟨doc, s⟩ := p
    rw [processResults, List.map_cons, List.foldl_cons]
    rw [ih]
    rw [dictInsert_map_fst]

theorem processResults_objects_keys (w : ℚ) (k : Nat) :
    ∀ (rs : List (Document × ℚ)) (rank : Nat) (st : FusionState),
      ((processResults w k rs rank st).doc_objects).map Prod.fst =
        (rs.map (fun p => p.1.chunk_id)).foldl insertNew
          (st.doc_objects.map Prod.fst) := by
  intro rs
  induction rs with
  | nil => intro rank st; rfl
  | cons p t ih =>
    intro rank st
    obtain ⟨doc, s⟩ := p
    rw [processResults, List.map_cons, List.foldl_cons]
    rw [ih]
    rw [dictInsert_map_fst]

theorem processResults_score (w : ℚ) (k : Nat) :
    ∀ (rs : List (Document × ℚ)) (rank : Nat) (st : FusionState) (c : String),
      dictGetD (processResults w k rs rank st).doc_scores c 0 =
        dictGetD st.doc_scores c 0 + spec_rrfContribFrom w k c rs rank := by
  intro rs
  induction rs with
  | nil => intro rank st c; simp [processResults, spec_rrfContribFrom]
  | cons p t ih =>
    intro rank st c
    obtain ⟨doc, s⟩ := p
    rw [processResults, spec_rrfContribFrom]
    rw [ih]
    rw [dictGetD_dictInsert]
    by_cases hc : c = doc.chunk_id
    · have hc2 : doc.chunk_id = c := hc.symm
      rw [if_pos hc, if_pos hc2, hc]
      ring
    · have hc2 : ¬ (doc.chunk_id = c) := fun he => hc he.symm
      rw [if_neg hc, if_neg hc2]
      ring

theorem processResults_objects_good (w : ℚ) (k : Nat) :
    ∀ (rs : List (Document × ℚ)) (rank : Nat) (st : FusionState),
      (∀ x ∈ st.doc_objects, x.2.chunk_id = x.1) →
      ∀ x ∈ (processResults w k rs rank st).doc_objects, x.2.chunk_id = x.1 := by
  intro rs
  induction rs with
  | nil => intro rank st h; exact h
  | cons p t ih =>
    intro rank st h
    obtain ⟨doc, s⟩ := p
    rw [processResults]
    apply ih
    intro x hx
    rcases mem_dictInsert _ _ _ x hx with hm | he
    · exact h x hm
    · rw [he]

theorem dictGetD_of_mem (m : List (String × ℚ)) (c : String) (s : ℚ)
    (hnd : (m.map Prod.fst).Nodup) (hm : (c, s) ∈ m) : dictGetD m c 0 = s := by
  induction m with
  | nil => cases hm
  | cons p t ih =>
    rcases List.mem_cons.mp hm with he | hmem
    · rw [← he, dictGetD_cons]
      simp
    · have hc : c ∈ t.map Prod.fst := List.mem_map.mpr ⟨(c, s), hmem, rfl⟩
      have hp : ¬ (p.1 = c) := by
        intro he
        exact (List.nodup_cons.mp (by simpa using hnd)).1 (he ▸ hc)
      rw [dictGetD_cons, if_neg hp]
      exact ih (List.nodup_cons.mp (by simpa using hnd)).2 hmem

theorem dictGetDoc_chunkid (m : List (String × Document)) (c : String)
    (hgood : ∀ x ∈ m, x.2.chunk_id = x.1) (hc : c ∈ m.map Prod.fst) :
    (dictGetDoc m c).chunk_id = c := by
  unfold dictGetDoc
  cases hf : m.find? (fun p => p.1 = c) with
  | some p =>
    have hp : p.1 = c := by simpa using List.find?_some hf
    have hm : p ∈ m := List.mem_of_find?_eq_some hf
    rw [hgood p hm, hp]
  | none =>
    exfalso
    rcases List.mem_map.mp hc with ⟨p, hp, he⟩
    have := List.find?_eq_none.mp hf p hp
    simp [he] at this

theorem enum_mem_indexOf {l : List (String × ℚ)} (hnd : (l.map Prod.fst).Nodup)
    {i : Nat} {x : String × ℚ} (h : (i, x) ∈ l.enum) :
    (l.map Prod.fst).indexOf x.1 = i := by
  have hget : l[i]? = some x := List.mem_enum_iff_getElem?.mp h
  rcases List.getElem?_eq_some.mp hget with ⟨hlt, hgetElem⟩
  have hilt : i < (l.map Prod.fst).length := by simpa using hlt
  have hkey : (l.map Prod.fst)[i] = x.1 := by
    simp [List.getElem_map, hgetElem]
  have hidx := List.indexOf_getElem hnd i hilt
  rw [hkey] at hidx
  exact hidx

theorem mem_enum_snd {β : Type} {l : List β} {a : Nat × β} (h : a ∈ l.enum) : a.2 ∈ l := by
  have hget : l[a.1]? = some a.2 := List.mem_enum_iff_getElem?.mp h
  rcases List.getElem?_eq_some.mp hget with ⟨hlt, hgetElem⟩
  exact hgetElem ▸ List.getElem_mem hlt

/-- The fusion state built inside _reciprocal_rank_fusion before sorting. -/
def fusionState (h : HybridRetriever) (b v : List (Document × ℚ)) : FusionState :=
  processResults h.vector_weight h.k v 1 (processResults h.bm25_weight h.k b 1 ⟨[], []⟩)

theorem reciprocal_rank_fusion_eq (h : HybridRetriever) (b v : List (Document × ℚ)) :
    reciprocal_rank_fusion h b v =
      (pySortItemsDesc (fusionState h b v).doc_scores).map
        (fun p => (dictGetDoc (fusionState h b v).doc_objects p.1, p.2)) := rfl

theorem fusionState_scores_keys (h : HybridRetriever) (b v : List (Document × ℚ)) :
    ((fusionState h b v).doc_scores).map Prod.fst =
      firstOccList (b.map (fun p => p.1.chunk_id) ++ v.map (fun p => p.1.chunk_id)) := by
  unfold fusionState firstOccList
  rw [processResults_scores_keys, processResults_scores_keys]
  rw [List.foldl_append]
  rfl

theorem fusionState_objects_keys (h : HybridRetriever) (b v : List (Document × ℚ)) :
    ((fusionState h b v).doc_objects).map Prod.fst =
      ((fusionState h b v).doc_scores).map Prod.fst := by
  unfold fusionState
  rw [processResults_objects_keys, processResults_objects_keys,
    processResults_scores_keys, processResults_scores_keys]
  rfl

theorem fusionState_keys_nodup (h : HybridRetriever) (b v : List (Document × ℚ)) :
    (((fusionState h b v).doc_scores).map Prod.fst).Nodup := by
  rw [fusionState_scores_keys]
  exact foldl_insertNew_nodup _ [] List.nodup_nil

theorem fusionState_objects_good (h : HybridRetriever) (b v : List (Document × ℚ)) :
    ∀ x ∈ (fusionState h b v).doc_objects, x.2.chunk_id = x.1 := by
  unfold fusionState
  apply processResults_objects_good
  apply processResults_objects_good
  intro x hx
  cases hx

theorem fusionState_score (h : HybridRetriever) (b v : List (Document × ℚ)) (c : String) :
    dictGetD (fusionState h b v).doc_scores c 0 =
      spec_rrfContrib h.bm25_weight h.k b c + spec_rrfContrib h.vector_weight h.k v c := by
  unfold fusionState spec_rrfContrib
  rw [processResults_score, processResults_score]
  have : dictGetD (FusionState.mk [] []).doc_scores c 0 = 0 := rfl
  rw [this]
  ring

theorem pySortItemsDesc_perm (items : List (String × ℚ)) :
    List.Perm (pySortItemsDesc items) items := by
  unfold pySortItemsDesc
  have h1 : List.Perm ((List.insertionSort fusedLE items.enum).map Prod.snd)
      (items.enum.map Prod.snd) :=
    (List.perm_insertionSort fusedLE items.enum).map Prod.snd
  have h2 : items.enum.map Prod.snd = items := List.enumFrom_map_snd 0 items
  rwa [h2] at h1

def chunkA2 : Document := ⟨"budget details page", "a", []⟩
def hrDefault : HybridRetriever :=
  { bm25_retriever := bm25Pair, vector_retriever := ⟨faissSize1⟩ }

/-- C2: in hybrid fusion, every pair of the fused list carries as score
exactly the sum, over the bm25 and vector ranked lists, of weight/(k+r)
for each 1-indexed rank r at which that chunk's chunk_id occurs
(accumulation is by chunk_id, not object identity); in particular, with
weights 0.5/0.5 and k = 60, a chunk ranked 1st by both sub-retrievers is
fused to a single entry scoring 0.5/61 + 0.5/61 = 1/61 even when the two
lists hold different Document objects with the same chunk_id, and a chunk
ranked 1st only by the lexical list scores 0.5/61 = 1/122. -/
theorem rrf_contribution_formula :
    (∀ (h : HybridRetriever) (b v : List (Document × ℚ)) (p : Document × ℚ),
      p ∈ reciprocal_rank_fusion h b v →
        p.2 = spec_rrfContrib h.bm25_weight h.k b p.1.chunk_id +
          spec_rrfContrib h.vector_weight h.k v p.1.chunk_id) ∧
    reciprocal_rank_fusion hrDefault [(chunkA, 3)] [(chunkA2, 5)] = [(chunkA2, 1/61)] ∧
    reciprocal_rank_fusion hrDefault [(chunkA, 3)] [] = [(chunkA, 1/122)] ∧
    chunkA2.chunk_id = chunkA.chunk_id ∧ chunkA2 ≠ chunkA := by
  refine ⟨?_, ?_, ?_, rfl, by decide⟩
  · intro h b v p hp
    rw [reciprocal_rank_fusion_eq] at hp
    rcases List.mem_map.mp hp with ⟨q, hq, he⟩
    have hq2 : q ∈ (fusionState h b v).doc_scores :=
      (pySortItemsDesc_perm _).mem_iff.mp hq
    have hval : dictGetD (fusionState h b v).doc_scores q.1 0 = q.2 :=
      dictGetD_of_mem _ q.1 q.2 (fusionState_keys_nodup h b v)
        (by simpa using hq2)
    have hkeymem : q.1 ∈ ((fusionState h b v).doc_objects).map Prod.fst := by
      rw [fusionState_objects_keys]
      exact List.mem_map.mpr ⟨q, hq2, rfl⟩
    have hcid : (dictGetDoc (fusionState h b v).doc_objects q.1).chunk_id = q.1 :=
      dictGetDoc_chunkid _ q.1 (fusionState_objects_good h b v) hkeymem
    rw [← he]
    simp only [hcid]
    rw [← hval, fusionState_score]
  · norm_num [reciprocal_rank_fusion, processResults, dictInsert, dictGetD, dictGetDoc,
      pySortItemsDesc, fusedLE, List.insertionSort, List.orderedInsert, hrDefault,
      chunkA, chunkA2, List.find?]
  · norm_num [reciprocal_rank_fusion, processResults, dictInsert, dictGetD, dictGetDoc,
      pySortItemsDesc, fusedLE, List.insertionSort, List.orderedInsert, hrDefault,
      chunkA, List.find?]

/-- Witness for C2: the fused score 1/61 of the doubly top-ranked chunk
equals the sum of the two rank-1 contributions. -/
theorem rrf_contribution_formula_witness :
    ((chunkA2, (1:ℚ)/61) : Document × ℚ).2 =
      spec_rrfContrib hrDefault.bm25_weight hrDefault.k [(chunkA, 3)]
        (chunkA2, (1:ℚ)/61).1.chunk_id +
      spec_rrfContrib hrDefault.vector_weight hrDefault.k [(chunkA2, 5)]
        (chunkA2, (1:ℚ)/61).1.chunk_id :=
  rrf_contribution_formula.1 hrDefault [(chunkA, 3)] [(chunkA2, 5)] (chunkA2, 1/61)
    (by rw [rrf_contribution_formula.2.1]; exact List.mem_singleton.mpr rfl)

/-- The order the fused ranking actually satisfies: fused score strictly
descending, ties broken by the position of the chunk's first contribution
(bm25 list first, then vector list). -/
def fusedTieOrder (ids : List String) (p1 p2 : Document × ℚ) : Prop :=
  p2.2 < p1.2 ∨ (p1.2 = p2.2 ∧
    (firstOccList ids).indexOf p1.1.chunk_id ≤ (firstOccList ids).indexOf p2.1.chunk_id)

theorem fusion_pairwise (h : HybridRetriever) (b v : List (Document × ℚ)) :
    (reciprocal_rank_fusion h b v).Pairwise
      (fusedTieOrder (b.map (fun p => p.1.chunk_id) ++ v.map (fun p => p.1.chunk_id))) := by
  have hkeys : ((fusionState h b v).doc_scores).map Prod.fst =
      firstOccList (b.map (fun p => p.1.chunk_id) ++ v.map (fun p => p.1.chunk_id)) :=
    fusionState_scores_keys h b v
  have hnd : (((fusionState h b v).doc_scores).map Prod.fst).Nodup :=
    fusionState_keys_nodup h b v
  have heq : reciprocal_rank_fusion h b v =
      (List.insertionSort fusedLE ((fusionState h b v).doc_scores).enum).map
        (fun a => (dictGetDoc (fusionState h b v).doc_objects a.2.1, a.2.2)) := by
    rw [reciprocal_rank_fusion_eq]
    unfold pySortItemsDesc
    rw [List.map_map]
    rfl
  rw [heq, List.pairwise_map]
  have hsorted : (List.insertionSort fusedLE ((fusionState h b v).doc_scores).enum).Pairwise
      fusedLE :=
    List.sorted_insertionSort fusedLE ((fusionState h b v).doc_scores).enum
  refine hsorted.imp_of_mem ?_
  intro a c ha hc hle
  have ha2 : a ∈ ((fusionState h b v).doc_scores).enum :=
    (List.mem_insertionSort fusedLE).mp ha
  have hc2 : c ∈ ((fusionState h b v).doc_scores).enum :=
    (List.mem_insertionSort fusedLE).mp hc
  have ha3 : (a.1, a.2) ∈ ((fusionState h b v).doc_scores).enum := by
    rw [Prod.mk.eta]; exact ha2
  have hc3 : (c.1, c.2) ∈ ((fusionState h b v).doc_scores).enum := by
    rw [Prod.mk.eta]; exact hc2
  have haidx : (((fusionState h b v).doc_scores).map Prod.fst).indexOf a.2.1 = a.1 :=
    enum_mem_indexOf hnd ha3
  have hcidx : (((fusionState h b v).doc_scores).map Prod.fst).indexOf c.2.1 = c.1 :=
    enum_mem_indexOf hnd hc3
  have hamem : a.2 ∈ (fusionState h b v).doc_scores := mem_enum_snd ha2
  have hcmem : c.2 ∈ (fusionState h b v).doc_scores := mem_enum_snd hc2
  have hacid : (dictGetDoc (fusionState h b v).doc_objects a.2.1).chunk_id = a.2.1 :=
    dictGetDoc_chunkid _ _ (fusionState_objects_good h b v)
      (by rw [fusionState_objects_keys]; exact List.mem_map.mpr ⟨a.2, hamem, rfl⟩)
  have hccid : (dictGetDoc (fusionState h b v).doc_objects c.2.1).chunk_id = c.2.1 :=
    dictGetDoc_chunkid _ _ (fusionState_objects_good h b v)
      (by rw [fusionState_objects_keys]; exact List.mem_map.mpr ⟨c.2, hcmem, rfl⟩)
  rcases hle with hlt | ⟨heq2, hle2⟩
  · exact Or.inl hlt
  · right
    refine ⟨heq2, ?_⟩
    show (firstOccList _).indexOf (dictGetDoc (fusionState h b v).doc_objects a.2.1).chunk_id ≤
      (firstOccList _).indexOf (dictGetDoc (fusionState h b v).doc_objects c.2.1).chunk_id
    rw [hacid, hccid, ← hkeys, haidx, hcidx]
    exact hle2

theorem fusion_map_cid (h : HybridRetriever) (b v : List (Document × ℚ)) :
    (reciprocal_rank_fusion h b v).map (fun p => p.1.chunk_id) =
      (pySortItemsDesc (fusionState h b v).doc_scores).map Prod.fst := by
  rw [reciprocal_rank_fusion_eq, List.map_map]
  apply List.map_congr_left
  intro p hp
  have hmem : p ∈ (fusionState h b v).doc_scores :=
    (pySortItemsDesc_perm _).mem_iff.mp hp
  exact dictGetDoc_chunkid _ _ (fusionState_objects_good h b v)
    (by rw [fusionState_objects_keys]; exact List.mem_map.mpr ⟨p, hmem, rfl⟩)

theorem fusion_cids_nodup (h : HybridRetriever) (b v : List (Document × ℚ)) :
    ((reciprocal_rank_fusion h b v).map (fun p => p.1.chunk_id)).Nodup := by
  rw [fusion_map_cid]
  have hperm := (pySortItemsDesc_perm (fusionState h b v).doc_scores).map Prod.fst
  exact hperm.nodup_iff.mpr (fusionState_keys_nodup h b v)

theorem fusion_cids_complete (h : HybridRetriever) (b v : List (Document × ℚ))
    (c : String) :
    c ∈ (reciprocal_rank_fusion h b v).map (fun p => p.1.chunk_id) ↔
      c ∈ b.map (fun p => p.1.chunk_id) ++ v.map (fun p => p.1.chunk_id) := by
  rw [fusion_map_cid]
  rw [((pySortItemsDesc_perm (fusionState h b v).doc_scores).map Prod.fst).mem_iff]
  rw [fusionState_scores_keys]
  unfold firstOccList
  rw [mem_foldl_insertNew]
  simp

/-- C3 (amended): the fused ranking computed by HybridRetriever.retrieve
contains every distinct candidate chunk exactly once (a chunk_id appears
in it if and only if it occurs in the bm25 or the vector candidate list,
and no chunk_id repeats), orders them by total fused score descending
with ties between equal fused scores broken by the position of the
chunk's first contribution (bm25 list order first, then vector list
order) — not by lexicographic chunk_id order — and retrieve returns the
top-top_k prefix of that ordering, hence at most top_k results. -/
theorem hybrid_retrieve_order (h : HybridRetriever) (q : String) (top_k : Nat) :
    (reciprocal_rank_fusion h (h.bm25_retriever.retrieve q (top_k * 2))
        (h.vector_retriever.retrieve q (top_k * 2))).Pairwise
      (fusedTieOrder ((h.bm25_retriever.retrieve q (top_k * 2)).map (fun p => p.1.chunk_id) ++
        (h.vector_retriever.retrieve q (top_k * 2)).map (fun p => p.1.chunk_id))) ∧
    ((reciprocal_rank_fusion h (h.bm25_retriever.retrieve q (top_k * 2))
        (h.vector_retriever.retrieve q (top_k * 2))).map (fun p => p.1.chunk_id)).Nodup ∧
    (∀ c : String,
      c ∈ (reciprocal_rank_fusion h (h.bm25_retriever.retrieve q (top_k * 2))
          (h.vector_retriever.retrieve q (top_k * 2))).map (fun p => p.1.chunk_id) ↔
        c ∈ (h.bm25_retriever.retrieve q (top_k * 2)).map (fun p => p.1.chunk_id) ++
          (h.vector_retriever.retrieve q (top_k * 2)).map (fun p => p.1.chunk_id)) ∧
    h.retrieve q top_k =
      (reciprocal_rank_fusion h (h.bm25_retriever.retrieve q (top_k * 2))
        (h.vector_retriever.retrieve q (top_k * 2))).take top_k ∧
    (h.retrieve q top_k).length ≤ top_k := by
  refine ⟨fusion_pairwise h _ _, fusion_cids_nodup h _ _,
    fusion_cids_complete h _ _, rfl, ?_⟩
  have hret : h.retrieve q top_k =
      (reciprocal_rank_fusion h (h.bm25_retriever.retrieve q (top_k * 2))
        (h.vector_retriever.retrieve q (top_k * 2))).take top_k := rfl
  rw [hret]
  simp [List.length_take_le]

/-- The ordering the claim asserts: fused score descending, ties broken
by lexicographic order of chunk_id. -/
def spec_sortedByScoreThenChunkId (l : List (Document × ℚ)) : Prop :=
  l.Pairwise (fun p1 p2 => p2.2 < p1.2 ∨ (p1.2 = p2.2 ∧ p1.1.chunk_id ≤ p2.1.chunk_id))

def bm25OnlyB : BM25Retriever := ⟨⟨1, fun _ => [7]⟩, [chunkB]⟩
def vecOnlyA : VectorRetriever := ⟨⟨1, fun _ _ => [(chunkA, 2)]⟩⟩
def hrTie : HybridRetriever := { bm25_retriever := bm25OnlyB, vector_retriever := vecOnlyA }

/-- C3 counterexample: with chunk "b" coming only from the bm25 list and
chunk "a" coming only from the vector list, both are fused to the equal
score 0.5/61 = 1/122, and retrieve returns "b" before "a" although
"a" < "b" lexicographically: the code breaks ties by dict insertion
order, not by chunk id, refuting the claimed tie-break. -/
theorem hybrid_tie_not_lexicographic_cex :
    hrTie.retrieve "q" 2 = [(chunkB, 1/122), (chunkA, 1/122)] ∧
    chunkA.chunk_id < chunkB.chunk_id ∧
    ¬ spec_sortedByScoreThenChunkId (hrTie.retrieve "q" 2) := by
  have hba : ¬ ("b" : String) = "a" := by decide
  have hab : ¬ ("a" : String) = "b" := by decide
  have hret : hrTie.retrieve "q" 2 = [(chunkB, 1/122), (chunkA, 1/122)] := by
    norm_num [HybridRetriever.retrieve, BM25Retriever.retrieve, VectorRetriever.retrieve,
      reciprocal_rank_fusion, processResults, dictInsert, dictGetD, dictGetDoc,
      pySortItemsDesc, fusedLE, List.insertionSort, List.orderedInsert,
      bm25TopIndices, scoreDescIdxLE, hrTie, bm25OnlyB, vecOnlyA, chunkA, chunkB,
      List.find?, List.range, List.range.loop, hba, hab]
  have hlt : chunkA.chunk_id < chunkB.chunk_id := by
    rw [String.lt_iff_toList_lt]
    decide
  refine ⟨hret, hlt, ?_⟩
  rw [hret]
  unfold spec_sortedByScoreThenChunkId
  intro hpw
  have hrel := List.rel_of_pairwise_cons hpw (List.mem_singleton.mpr rfl)
  rcases hrel with hlt2 | ⟨_, hle⟩
  · exact lt_irrefl _ hlt2
  · have hnle : ¬ (chunkB.chunk_id ≤ chunkA.chunk_id) := by
      rw [String.le_iff_toList_le]
      decide
    exact hnle hle

theorem range_map_getD (l : List Document) :
    (List.range l.length).map (fun i => l.getD i default) = l := by
  apply List.ext_getElem
  · simp
  · intro i h1 h2
    simp only [List.getElem_map, List.getElem_range]
    rw [List.getD_eq_getElem?_getD, List.getElem?_eq_getElem h2]
    rfl

/-- C5: for every query and top_k >= 1, when the indexed chunks have
distinct chunk_ids (and the sub-indexes are aligned: one BM25 score per
document, FAISS returning only indexed documents), the fused result list
has length at most top_k, and exactly the corpus size when top_k is at
least the corpus size. -/
theorem hybrid_retrieve_length (h : HybridRetriever) (q : String) (top_k : Nat)
    (hscores : (h.bm25_retriever.bm25_index.get_scores (tokenize q)).length =
      h.bm25_retriever.documents.length)
    (hnd : (h.bm25_retriever.documents.map Document.chunk_id).Nodup)
    (hvec : ∀ p ∈ h.vector_retriever.faiss_index.similarity_search_with_score q (top_k * 2),
      p.1.chunk_id ∈ h.bm25_retriever.documents.map Document.chunk_id)
    (_htop : 1 ≤ top_k) :
    (h.retrieve q top_k).length ≤ top_k ∧
    (h.bm25_retriever.documents.length ≤ top_k →
      (h.retrieve q top_k).length = h.bm25_retriever.documents.length) := by
  have hret : h.retrieve q top_k =
      (reciprocal_rank_fusion h (h.bm25_retriever.retrieve q (top_k * 2))
        (h.vector_retriever.retrieve q (top_k * 2))).take top_k := rfl
  constructor
  · rw [hret, List.length_take]
    exact Nat.min_le_left _ _
  · intro hn
    -- the length of the fused list is the number of distinct candidate ids
    have hflen : ∀ b v : List (Document × ℚ),
        (reciprocal_rank_fusion h b v).length =
          (firstOccList (b.map (fun p => p.1.chunk_id) ++
            v.map (fun p => p.1.chunk_id))).length := by
      intro b v
      rw [reciprocal_rank_fusion_eq, List.length_map,
        (pySortItemsDesc_perm _).length_eq, ← fusionState_scores_keys h b v,
        List.length_map]
    -- the bm25 candidate ids are a permutation of all document ids
    have h2k : h.bm25_retriever.documents.length ≤ top_k * 2 := by omega
    have htake : bm25TopIndices (h.bm25_retriever.bm25_index.get_scores (tokenize q))
        (top_k * 2) =
        List.insertionSort
          (scoreDescIdxLE (h.bm25_retriever.bm25_index.get_scores (tokenize q)))
          (List.range (h.bm25_retriever.bm25_index.get_scores (tokenize q)).length) := by
      apply List.take_of_length_le
      rw [List.length_insertionSort, List.length_range, hscores]
      exact h2k
    have hBids : List.Perm
        ((h.bm25_retriever.retrieve q (top_k * 2)).map (fun p => p.1.chunk_id))
        (h.bm25_retriever.documents.map Document.chunk_id) := by
      show List.Perm (((bm25TopIndices _ (top_k * 2)).map _).map _) _
      rw [List.map_map, htake]
      have hperm := (List.perm_insertionSort
        (scoreDescIdxLE (h.bm25_retriever.bm25_index.get_scores (tokenize q)))
        (List.range (h.bm25_retriever.bm25_index.get_scores (tokenize q)).length)).map
        ((fun p => p.1.chunk_id) ∘
          (fun idx => (h.bm25_retriever.documents.getD idx default,
            (h.bm25_retriever.bm25_index.get_scores (tokenize q)).getD idx 0)))
      refine hperm.trans ?_
      rw [hscores]
      have : (List.range h.bm25_retriever.documents.length).map
          ((fun p => p.1.chunk_id) ∘
            (fun idx => (h.bm25_retriever.documents.getD idx default,
              (h.bm25_retriever.bm25_index.get_scores (tokenize q)).getD idx 0))) =
          ((List.range h.bm25_retriever.documents.length).map
            (fun i => h.bm25_retriever.documents.getD i default)).map Document.chunk_id := by
        rw [List.map_map]
        rfl
      rw [this, range_map_getD]
  -- hence the keys after the bm25 phase are exactly the document ids
    have hBnodup : ((h.bm25_retriever.retrieve q (top_k * 2)).map
        (fun p => p.1.chunk_id)).Nodup := hBids.nodup_iff.mpr hnd
    have hVsub : ∀ x ∈ (h.vector_retriever.retrieve q (top_k * 2)).map
        (fun p => p.1.chunk_id),
        x ∈ (h.bm25_retriever.retrieve q (top_k * 2)).map (fun p => p.1.chunk_id) := by
      intro x hx
      rcases List.mem_map.mp hx with ⟨p, hp, he⟩
      rcases List.mem_map.mp hp with ⟨p0, hp0, he0⟩
      have hmemdocs : p.1.chunk_id ∈ h.bm25_retriever.documents.map Document.chunk_id := by
        rw [← he0]
        exact hvec p0 hp0
      rw [← he]
      exact hBids.mem_iff.mpr hmemdocs
    have hkeys : firstOccList
        ((h.bm25_retriever.retrieve q (top_k * 2)).map (fun p => p.1.chunk_id) ++
          (h.vector_retriever.retrieve q (top_k * 2)).map (fun p => p.1.chunk_id)) =
        (h.bm25_retriever.retrieve q (top_k * 2)).map (fun p => p.1.chunk_id) := by
      unfold firstOccList
      rw [List.foldl_append]
      rw [foldl_insertNew_of_fresh _ [] hBnodup (by intro x _; exact List.not_mem_nil x)]
      rw [List.nil_append]
      exact foldl_insertNew_of_subset _ _ hVsub
    rw [hret, List.length_take, hflen, hkeys, hBids.length_eq, List.length_map]
    exact Nat.min_eq_right hn

def vecA1 : VectorRetriever := ⟨⟨2, fun _ _ => [(chunkA, 3)]⟩⟩

/-- A hybrid retriever over the two-document corpus, whose vector side
returns the first document. -/
def hrFull : HybridRetriever := { bm25_retriever := bm25Pair, vector_retriever := vecA1 }

/-- Witness for C5 on the two-document corpus with top_k = 2. -/
theorem hybrid_retrieve_length_witness :
    (hrFull.retrieve "budget" 2).length ≤ 2 ∧
    (hrFull.bm25_retriever.documents.length ≤ 2 →
      (hrFull.retrieve "budget" 2).length = hrFull.bm25_retriever.documents.length) :=
  hybrid_retrieve_length hrFull "budget" 2 rfl (by decide) (by decide) (by decide)
